import Mathlib

/-
Verification development for the core of the dig dependency-injection
container (package dig and its internal/graph package).

The Go code is shallowly embedded: machine state (the Container's maps and
the constructor nodes' called flags) is passed explicitly, Go maps become
association lists with lookup/insert semantics, the user-supplied
constructor functions become an explicit environment `Env` mapping a node id
and the resolved argument list to an optional list of produced values
(`none` models the constructor returning a non-nil error), and the
container's source of randomness becomes an explicit `Rng` that yields the
index permutation used by shuffledCopy.  Unbounded recursion in the Go
resolution engine (constructorNode.Call / paramList.BuildList /
param.Build) is modelled with an explicit fuel parameter; exhausting the
fuel yields the distinguished error `DigErr.outOfFuel`, which corresponds
to a divergent (infinitely recursive) execution of the original program.
-/

namespace Dig

/-- Identifier standing for a Go reflect.Type. -/
abbrev TypeId := Nat

/-- Identifier of a constructor node (Go: dot.CtorID / pointer identity). -/
abbrev NodeId := Nat

/-- Model of a Go reflect.Value as routed through the container:
`invalid` is the zero reflect.Value (dig's _noValue), `zero t` is
reflect.Zero(t), `base n` an ordinary scalar value, `slice` the value built
by paramGroupedSlice.Build, `obj` the struct built by paramObject.Build. -/
inductive Value where
  | invalid
  | zero (t : TypeId)
  | base (n : Nat)
  | slice (elems : List Value)
  | obj (fields : List Value)

/-- Go: type key struct { t reflect.Type; name string; group string }.
Only one of name or group is ever set. -/
structure Key where
  t : TypeId
  name : String
  group : String
deriving DecidableEq, Repr

/-- Association-list lookup, modelling Go map read `m[k]` (found case). -/
def lookupA {κ α : Type} [DecidableEq κ] : List (κ × α) → κ → Option α
  | [], _ => none
  | (k, v) :: rest, q => if q = k then some v else lookupA rest q

/-- Association-list insert, modelling Go map write `m[k] = v`
(overwrite if present, append otherwise). -/
def insertA {κ α : Type} [DecidableEq κ] : List (κ × α) → κ → α → List (κ × α)
  | [], q, v => [(q, v)]
  | (k, w) :: rest, q, v =>
    if q = k then (k, v) :: rest else (k, w) :: insertA rest q v

/-- The parameter descriptor tree (Go: param / paramSingle /
paramGroupedSlice / paramObject from param.go).  A grouped slice keeps both
the slice type (used as the graph-node key in newParamGroupedSlice) and the
element type (used for value lookups in paramGroupedSlice.Build). -/
inductive Param where
  | single (name : String) (optional : Bool) (t : TypeId)
  | grouped (group : String) (sliceT : TypeId) (elemT : TypeId)
  | object (fields : List Param)

/-- The result descriptor (Go: resultSingle with its As aliases, and
resultGrouped). -/
inductive Result where
  | single (name : String) (t : TypeId) (asTypes : List TypeId)
  | grouped (group : String) (t : TypeId)
deriving DecidableEq, Repr

/-- Go: constructorNode (dig.go).  `ctype` is the reflect type of the
constructor function, `order` its index in the graph holder. -/
structure CNode where
  id : NodeId
  ctype : TypeId
  params : List Param
  results : List Result
  called : Bool
  order : Nat

/-- A node stored in the graph holder: either a constructor node or the
implicit leaf node registered for a consumed value group.  A group leaf
carries the group name, the slice type and the element type, mirroring Go
storing the wrapped *paramGroupedSlice in the node (its Group and Type
fields are what EdgesFrom needs). -/
inductive GHNode where
  | ctor (nid : NodeId)
  | group (grp : String) (sliceT : TypeId) (elemT : TypeId)
deriving DecidableEq, Repr

/-- Modelled from the spec: the graphHolder type is not under src (only its
callers are).  Per spec section 4.4 it owns the graph's node list and a
derived order map, with snapshot()/rollback() saving and restoring both. -/
structure GraphHolder where
  nodes : List GHNode
  orders : List (Key × Nat)
  snap : Option (List GHNode × List (Key × Nat))
deriving DecidableEq, Repr

/-- Modelled from the spec: graphHolder.Snapshot saves the node list and
order map. -/
def GraphHolder.Snapshot (gh : GraphHolder) : GraphHolder :=
  { gh with snap := some (gh.nodes, gh.orders) }

/-- Modelled from the spec: graphHolder.Rollback restores the node list and
order map saved by the last Snapshot. -/
def GraphHolder.Rollback (gh : GraphHolder) : GraphHolder :=
  match gh.snap with
  | some (ns, os) => { nodes := ns, orders := os, snap := none }
  | none => gh

/-- Go: Container (dig.go).  `pool` models the heap of constructorNode
objects (they are shared by pointer between c.providers and c.nodes in Go);
`nodesList` is the c.nodes slice, holding ids into the pool. -/
structure Container where
  pool : List CNode
  providers : List (Key × List NodeId)
  nodesList : List NodeId
  values : List (Key × Value)
  groups : List (Key × List Value)
  gh : GraphHolder
  isVerifiedAcyclic : Bool
  deferAcyclicVerification : Bool

/-- Dereference a constructor-node id in the heap pool. -/
def lookupNode (c : Container) (nid : NodeId) : Option CNode :=
  c.pool.find? (fun n => n.id = nid)

/-- The called flag of a node, false when the id is dangling. -/
def calledOf (c : Container) (nid : NodeId) : Bool :=
  match lookupNode c nid with
  | some n => n.called
  | none => false

/-- Set the called flag of the node with the given id (Go mutates the node
in place through its pointer). -/
def setCalled (c : Container) (nid : NodeId) : Container :=
  { c with pool := c.pool.map (fun n => if n.id = nid then { n with called := true } else n) }

/-- Go: Container.getValue. -/
def getValue (c : Container) (name : String) (t : TypeId) : Option Value :=
  lookupA c.values ⟨t, name, ""⟩

/-- Go: Container.setValue (overwrites an existing value for the key). -/
def Container.setValue (c : Container) (name : String) (t : TypeId) (v : Value) : Container :=
  { c with values := insertA c.values ⟨t, name, ""⟩ v }

/-- The accumulated list for a group key (Go: c.groups[key], nil when
absent). -/
def groupsGet (c : Container) (name : String) (t : TypeId) : List Value :=
  (lookupA c.groups ⟨t, "", name⟩).getD []

/-- Go: Container.submitGroupedValue — always appends to the group. -/
def submitGroupedValue (c : Container) (name : String) (t : TypeId) (v : Value) : Container :=
  { c with groups := insertA c.groups ⟨t, "", name⟩ (groupsGet c name t ++ [v]) }

/-- The provider list for a key (Go: c.providers[k] via getProviders, nil
when absent). -/
def providersGet (c : Container) (k : Key) : List NodeId :=
  (lookupA c.providers k).getD []

/-- The container's source of randomness: given n, yields the index
permutation that rand.Perm(n) returned. -/
abbrev Rng := Nat → List Nat

/-- Go: shuffledCopy (dig.go) — newItems[i] = items[j] for i, j over
rand.Perm(len(items)). -/
def shuffledCopy (perm : List Nat) (items : List Value) : List Value :=
  perm.map (fun j => items.getD j Value.invalid)

/-- Go: Container.getValueGroup — a shuffled copy of the accumulated
group. -/
def getValueGroup (rng : Rng) (c : Container) (name : String) (t : TypeId) : List Value :=
  shuffledCopy (rng (groupsGet c name t).length) (groupsGet c name t)

/-- The behaviour of the user-supplied constructor functions: node id and
resolved arguments to the produced values; `none` models the constructor
returning a non-nil error (resultList.ExtractList then reports failure). -/
abbrev Env := NodeId → List Value → Option (List Value)

/-- Errors of the resolution engine.  outOfFuel is the embedding's marker
for a divergent execution. -/
inductive DigErr where
  | outOfFuel
  | missingDependencies
  | argumentsFailed (reason : DigErr)
  | constructorFailed
  | missingTypes (k : Key)
  | paramSingleFailed (cid : NodeId) (k : Key) (reason : DigErr)
  | paramGroupFailed (cid : NodeId) (k : Key) (reason : DigErr)
  | provideConflict
  | noNonErrorType
  | cycleDetected (cycle : List Nat)
deriving DecidableEq, Repr

mutual

/-- Go: findMissingDependencies restricted to one param (dig.go): a
required single with no registered provider is missing; grouped params are
exempt; parameter objects are traversed field by field. -/
def hasMissingP (c : Container) : Param → Bool
  | .single name opt t => !opt && (providersGet c ⟨t, name, ""⟩).isEmpty
  | .grouped _ _ _ => false
  | .object fields => hasMissingL c fields

/-- Go: findMissingDependencies over a parameter list (dig.go); together
with the nonempty check this is shallowCheckDependencies. -/
def hasMissingL (c : Container) : List Param → Bool
  | [] => false
  | p :: ps => hasMissingP c p || hasMissingL c ps

end

/-- Go: stagingContainerWriter (dig.go 1039-1075) — records setValue and
submitGroupedValue calls and defers them until Commit. -/
structure StagingWriter where
  values : List (Key × Value)
  groups : List (Key × List Value)

/-- Go: stagingContainerWriter.setValue. -/
def StagingWriter.setValue (sr : StagingWriter) (name : String) (t : TypeId) (v : Value) : StagingWriter :=
  { sr with values := insertA sr.values ⟨t, name, ""⟩ v }

/-- Go: stagingContainerWriter.submitGroupedValue. -/
def StagingWriter.submitGroupedValue (sr : StagingWriter) (group : String) (t : TypeId) (v : Value) : StagingWriter :=
  { sr with groups := insertA sr.groups ⟨t, "", group⟩ ((lookupA sr.groups ⟨t, "", group⟩).getD [] ++ [v]) }

/-- Go: stagingContainerWriter.Commit — replays every staged single value
and every staged grouped value into the real container. -/
def StagingWriter.Commit (sr : StagingWriter) (c : Container) : Container :=
  let c1 := sr.values.foldl (fun acc kv => acc.setValue kv.1.name kv.1.t kv.2) c
  sr.groups.foldl
    (fun acc kg => kg.2.foldl (fun a v => Dig.submitGroupedValue a kg.1.group kg.1.t v) acc) c1

/-- Modelled from the spec: resultList.ExtractList is not under src.  Per
spec sections 4.3 and 3, each produced value is routed into the staging
writer: a single result via setValue under its own key and additionally
under each As-alias key, a grouped result via submitGroupedValue. -/
def extractList (results : List Result) (outs : List Value) : StagingWriter :=
  (results.zip outs).foldl
    (fun sr rv =>
      match rv.1 with
      | .single name t asTs =>
        (asTs.foldl (fun s a => s.setValue name a rv.2) (sr.setValue name t rv.2))
      | .grouped g t => sr.submitGroupedValue g t rv.2)
    ⟨[], []⟩

mutual

/-- Go: constructorNode.Call (dig.go 934-965).  No-op when already called;
otherwise shallow-checks dependencies, builds the argument list (which may
recursively call other nodes), invokes the user constructor (via Env),
extracts the results into a staging writer, and only on success commits the
staged values and sets the called flag. -/
def Call (env : Env) (rng : Rng) : Nat → Container → NodeId → Container × Option DigErr
  | 0, c, _ => (c, some .outOfFuel)
  | fuel + 1, c, nid =>
    match lookupNode c nid with
    | none => (c, some .outOfFuel)
    | some n =>
      if n.called then (c, none)
      else if hasMissingL c n.params then (c, some .missingDependencies)
      else
        match BuildList env rng fuel c n.params with
        | (c1, .error e) => (c1, some (.argumentsFailed e))
        | (c1, .ok args) =>
          match env nid args with
          | none => (c1, some .constructorFailed)
          | some outs => (setCalled ((extractList n.results outs).Commit c1) nid, none)

/-- Go: paramList.BuildList (param.go) — builds each param in order,
aborting on the first error. -/
def BuildList (env : Env) (rng : Rng) : Nat → Container → List Param → Container × Except DigErr (List Value)
  | 0, c, _ => (c, .error .outOfFuel)
  | _ + 1, c, [] => (c, .ok [])
  | fuel + 1, c, p :: ps =>
    match Build env rng fuel c p with
    | (c1, .error e) => (c1, .error e)
    | (c1, .ok v) =>
      match BuildList env rng fuel c1 ps with
      | (c2, .error e) => (c2, .error e)
      | (c2, .ok vs) => (c2, .ok (v :: vs))

/-- Go: param.Build (param.go): paramSingle.Build, paramGroupedSlice.Build
and paramObject.Build. -/
def Build (env : Env) (rng : Rng) : Nat → Container → Param → Container × Except DigErr Value
  | 0, c, _ => (c, .error .outOfFuel)
  | fuel + 1, c, .single name opt t =>
    match getValue c name t with
    | some v => (c, .ok v)
    | none =>
      if (providersGet c ⟨t, name, ""⟩).isEmpty then
        if opt then (c, .ok (.zero t))
        else (c, .error (.missingTypes ⟨t, name, ""⟩))
      else providersLoop env rng fuel c (providersGet c ⟨t, name, ""⟩) name opt t
  | fuel + 1, c, .grouped grp _ elemT =>
    match groupLoop env rng fuel c (providersGet c ⟨elemT, "", grp⟩) grp elemT with
    | (c1, some e) => (c1, .error e)
    | (c1, none) => (c1, .ok (.slice (getValueGroup rng c1 grp elemT)))
  | fuel + 1, c, .object fields =>
    match BuildList env rng fuel c fields with
    | (c1, .error e) => (c1, .error e)
    | (c1, .ok vs) => (c1, .ok (.obj vs))

/-- Go: the provider loop inside paramSingle.Build — calls every provider
of the key; a call failing with errMissingDependencies resolves an optional
leaf to its zero value, any other failure aborts with
errParamSingleFailed; after the loop the now-cached value is read. -/
def providersLoop (env : Env) (rng : Rng) : Nat → Container → List NodeId → String → Bool → TypeId → Container × Except DigErr Value
  | 0, c, _, _, _, _ => (c, .error .outOfFuel)
  | _ + 1, c, [], name, _, t => (c, .ok ((getValue c name t).getD .invalid))
  | fuel + 1, c, pid :: rest, name, opt, t =>
    match Call env rng fuel c pid with
    | (c1, none) => providersLoop env rng fuel c1 rest name opt t
    | (c1, some e) =>
      if e = .missingDependencies && opt then (c1, .ok (.zero t))
      else (c1, .error (.paramSingleFailed pid ⟨t, name, ""⟩ e))

/-- Go: the provider loop inside paramGroupedSlice.Build — calls every
provider of the group, aborting with errParamGroupFailed on the first
failure. -/
def groupLoop (env : Env) (rng : Rng) : Nat → Container → List NodeId → String → TypeId → Container × Option DigErr
  | 0, c, _, _, _ => (c, some .outOfFuel)
  | _ + 1, c, [], _, _ => (c, none)
  | fuel + 1, c, pid :: rest, grp, t =>
    match Call env rng fuel c pid with
    | (c1, none) => groupLoop env rng fuel c1 rest grp t
    | (c1, some e) => (c1, some (.paramGroupFailed pid ⟨t, "", grp⟩ e))

end

/-- Go: the Graph interface of internal/graph — a node count and the
derived edge function. -/
structure DiGraph where
  count : Nat
  edges : Nat → List Nat

/-- Go: cycleDetectInfo (internal/graph/graph.go) — the visited set, the
on-stack map and the backtrack map threaded through the DFS. -/
structure cycleDetectInfo where
  visited : List Nat
  onStack : List (Nat × Bool)
  backtrack : List (Nat × Nat)
deriving DecidableEq, Repr

/-- Total number of edges reachable through indices below count; used only
to size the fuel of the DFS embedding. -/
def edgeTotal (g : DiGraph) : Nat :=
  (List.range g.count).foldl (fun a n => a + (g.edges n).length) 0

/-- Fuel that strictly dominates the number of steps the Go DFS performs
on a well-formed graph (each node is entered at most once thanks to the
visited set, and each edge is examined at most once). -/
def dfsFuel (g : DiGraph) : Nat :=
  (g.count + 2) * (edgeTotal g + 2)

mutual

/-- Go: isAcyclic (internal/graph/graph.go 54-70).  Marks the node visited
and on-stack, examines its neighbors, and clears the on-stack mark (by
setting it to false, as the Go code does) before returning true. -/
def isAcyclicGo (g : DiGraph) : Nat → Nat → cycleDetectInfo → Bool × cycleDetectInfo
  | 0, _, info => (true, info)
  | fuel + 1, n, info =>
    let info1 : cycleDetectInfo :=
      { info with
        visited := if n ∈ info.visited then info.visited else info.visited ++ [n],
        onStack := insertA info.onStack n true }
    match visitNeighbors g fuel n (g.edges n) info1 with
    | (false, info2) => (false, info2)
    | (true, info2) => (true, { info2 with onStack := insertA info2.onStack n false })

/-- Go: the neighbor loop of isAcyclic — records the back edge, recurses
into unvisited neighbors, and reports a cycle exactly when a neighbor that
is already on the current stack is revisited. -/
def visitNeighbors (g : DiGraph) : Nat → Nat → List Nat → cycleDetectInfo → Bool × cycleDetectInfo
  | 0, _, _, info => (true, info)
  | _ + 1, _, [], info => (true, info)
  | fuel + 1, n, nb :: rest, info =>
    let info1 : cycleDetectInfo := { info with backtrack := insertA info.backtrack nb n }
    if nb ∈ info1.visited then
      if (lookupA info1.onStack nb).getD false then (false, info1)
      else visitNeighbors g fuel n rest info1
    else
      match isAcyclicGo g fuel nb info1 with
      | (false, info2) => (false, info2)
      | (true, info2) => visitNeighbors g fuel n rest info2

end

/-- Go: the reconstruction loop of getCyclePath — walks the backtrack map
from bt[start], prepending each node, until it comes back to start (a
missing map entry yields Go's zero value 0; the fuel bounds the walk, which
in Go can only terminate on the maps the DFS actually produces). -/
def cyclePathWalk (bt : List (Nat × Nat)) (start : Nat) : Nat → Nat → List Nat → List Nat
  | 0, _, acc => acc
  | fuel + 1, curr, acc =>
    if curr = start then acc
    else cyclePathWalk bt start fuel ((lookupA bt curr).getD 0) (curr :: acc)

/-- Go: getCyclePath (internal/graph/graph.go 72-80).  path starts as
[start]; the loop runs only when bt[start] exists; finally start is
prepended once more. -/
def getCyclePath (start : Nat) (bt : List (Nat × Nat)) (fuel : Nat) : List Nat :=
  let path1 :=
    match lookupA bt start with
    | none => [start]
    | some c0 => cyclePathWalk bt start fuel c0 [start]
  start :: path1

/-- Go: VerifyAcyclic (internal/graph/graph.go 43-52) — runs the DFS from
node n on a fresh cycleDetectInfo and unconditionally reconstructs the
cycle path from the backtrack map. -/
def VerifyAcyclic (g : DiGraph) (n : Nat) : Bool × List Nat :=
  let r := isAcyclicGo g (dfsFuel g) n ⟨[], [], []⟩
  (r.1, getCyclePath n r.2.backtrack (g.count + 2))

/-- Helper for IsAcyclic: check every listed start node in turn. -/
def IsAcyclicFrom (g : DiGraph) : List Nat → Bool × List Nat
  | [] => (true, [])
  | n :: rest =>
    match VerifyAcyclic g n with
    | (true, _) => IsAcyclicFrom g rest
    | (false, cyc) => (false, cyc)

/-- Modelled from the spec: graph.IsAcyclic (the whole-graph check invoked
by provide and Invoke) is not under src — only VerifyAcyclic is.  Per the
spec the whole graph is re-checked; this runs the DFS of VerifyAcyclic
from every node index. -/
def IsAcyclic (g : DiGraph) : Bool × List Nat :=
  IsAcyclicFrom g (List.range g.count)

/-- The reflect type of a node's constructor function (Go:
provider.CType()), 0 for a dangling id. -/
def ctypeOf (c : Container) (pid : NodeId) : TypeId :=
  match lookupNode c pid with
  | some n => n.ctype
  | none => 0

/-- The graph order of a node (Go: provider.Order()), 0 for a dangling
id. -/
def orderOf (c : Container) (pid : NodeId) : Nat :=
  match lookupNode c pid with
  | some n => n.order
  | none => 0

mutual

/-- Go: getParamOrder (param.go 432-450) — for a single, the orders of its
providers looked up through gh.orders under the provider's constructor
type (Go map reads default to 0); for a grouped slice, the order recorded
for the group's slice-typed key; for an object, the concatenation over its
fields. -/
def getParamOrder (c : Container) : Param → List Nat
  | .single name _ t =>
    (providersGet c ⟨t, name, ""⟩).map
      (fun pid => (lookupA c.gh.orders ⟨ctypeOf c pid, "", ""⟩).getD 0)
  | .grouped grp sliceT _ => [(lookupA c.gh.orders ⟨sliceT, "", grp⟩).getD 0]
  | .object fields => getParamOrderL c fields

/-- getParamOrder lifted over a parameter list. -/
def getParamOrderL (c : Container) : List Param → List Nat
  | [] => []
  | p :: ps => getParamOrder c p ++ getParamOrderL c ps

end

/-- The edges leaving a constructor node: the provider orders of its
parameter descriptors, via getParamOrder (which is under src). -/
def ghCtorEdges (c : Container) (nid : NodeId) : List Nat :=
  match lookupNode c nid with
  | some n => getParamOrderL c n.params
  | none => []

/-- Modelled from the spec: the graph holder's EdgesFrom is not under src.
Per spec section 4.4 edges are derived on demand from each node's
descriptor: a constructor node points at the provider orders of its params
(via getParamOrder, which is under src), a group leaf node at the orders of
that group's providers.  Group providers are registered under the
element-typed key (walkResultKeys, faithful to dig.go), which is also the
key paramGroupedSlice.Build reads via pt.Type.Elem(), so the group leaf's
out-edges are looked up under the element type. -/
def ghEdges (c : Container) (i : Nat) : List Nat :=
  match c.gh.nodes.get? i with
  | some (.ctor nid) => ghCtorEdges c nid
  | some (.group grp _ elemT) => (providersGet c ⟨elemT, "", grp⟩).map (orderOf c)
  | none => []

/-- The dependency graph the container's graph holder presents to the
cycle detector. -/
def ghGraph (c : Container) : DiGraph :=
  ⟨c.gh.nodes.length, ghEdges c⟩

mutual

/-- The grouped slices occurring in a parameter tree, as (group, slice
type, element type) triples; Go's newParamGroupedSlice registers a graph
node for each, recording its order under the slice-typed key, while the
param list is parsed. -/
def groupSlicesP : Param → List (String × TypeId × TypeId)
  | .single _ _ _ => []
  | .grouped grp sliceT elemT => [(grp, sliceT, elemT)]
  | .object fields => groupSlicesL fields

/-- groupSlicesP lifted over a parameter list. -/
def groupSlicesL : List Param → List (String × TypeId × TypeId)
  | [] => []
  | p :: ps => groupSlicesP p ++ groupSlicesL ps

end

/-- Append a node to the graph holder, recording its order under the given
key (Go: Container.newGraphNode / graphHolder.NewNode; the order map entry
is modelled from the spec since NewNode is not under src). -/
def addGraphNode (c : Container) (w : GHNode) (k : Key) : Container :=
  { c with gh := { c.gh with
      nodes := c.gh.nodes ++ [w],
      orders := insertA c.gh.orders k c.gh.nodes.length } }

/-- The pre-parsed shape of a constructor handed to provide: its identity,
the reflect type of the function, and its parameter and result
descriptors (the reflection-based descriptor parser is an external
collaborator per spec section 1). -/
structure ProvideArgs where
  id : NodeId
  ctype : TypeId
  params : List Param
  results : List Result

/-- Go: newConstructorNode (dig.go 888-925) — parsing the param list
registers a graph node per grouped slice, then the constructor node itself
is appended to the graph holder and its order recorded. -/
def newConstructorNodeM (c : Container) (a : ProvideArgs) : Container × CNode :=
  let c1 := (groupSlicesL a.params).foldl
    (fun acc g => addGraphNode acc (.group g.1 g.2.1 g.2.2) ⟨g.2.1, "", g.1⟩) c
  let ord := c1.gh.nodes.length
  let c2 := addGraphNode c1 (.ctor a.id) ⟨a.ctype, "", ""⟩
  let n : CNode := ⟨a.id, a.ctype, a.params, a.results, false, ord⟩
  ({ c2 with pool := c2.pool ++ [n] }, n)

/-- Go: connectionVisitor.checkKey (dig.go 829-849) — a key conflicts when
this constructor already produces it or another provider is registered for
it. -/
def checkKeyConflict (c : Container) (seen : List Key) (k : Key) : Bool :=
  decide (k ∈ seen) || !(providersGet c k).isEmpty

/-- Record a produced key (Go: the keyPaths map; duplicates collapse). -/
def addSeen (seen : List Key) (k : Key) : List Key :=
  if k ∈ seen then seen else seen ++ [k]

/-- Check, in order, a single result's own key and its As-alias keys. -/
def walkSingleKeys (c : Container) : List Key → List Key → Except DigErr (List Key)
  | [], seen => .ok seen
  | k :: ks, seen =>
    if checkKeyConflict c seen k then .error .provideConflict
    else walkSingleKeys c ks (addSeen seen k)

/-- Go: findAndValidateResults / connectionVisitor (dig.go 727-849) — walk
the result descriptors collecting every produced key; single results are
checked for conflicts (their own key and each As key), grouped results are
collected without a check. -/
def walkResultKeys (c : Container) : List Result → List Key → Except DigErr (List Key)
  | [], seen => .ok seen
  | .single name t asTs :: rest, seen =>
    match walkSingleKeys c (⟨t, name, ""⟩ :: asTs.map (fun a => ⟨a, name, ""⟩)) seen with
    | .error e => .error e
    | .ok seen1 => walkResultKeys c rest seen1
  | .grouped g t :: rest, seen => walkResultKeys c rest (addSeen seen ⟨t, "", g⟩)

/-- Go: the middle of Container.provide (dig.go 675-682): append the node
to the providers of every produced key and clear isVerifiedAcyclic. -/
def provideStep2 (c1 : Container) (a : ProvideArgs) (keys : List Key) : Container :=
  { keys.foldl
      (fun acc k => { acc with providers := insertA acc.providers k (providersGet acc k ++ [a.id]) })
      c1 with isVerifiedAcyclic := false }

/-- Go: the tail of Container.provide once the produced keys are known
(dig.go 671-696): require at least one key, append the providers, and —
unless verification is deferred — re-check the whole graph, restoring the
old provider lists and failing if a cycle was introduced. -/
def provideAfterKeys (c1 : Container) (a : ProvideArgs) (keys : List Key) :
    Container × Option DigErr :=
  if keys.isEmpty then (c1, some .noNonErrorType)
  else
    if (provideStep2 c1 a keys).deferAcyclicVerification then
      ({ provideStep2 c1 a keys with
          nodesList := (provideStep2 c1 a keys).nodesList ++ [a.id] }, none)
    else
      match IsAcyclic (ghGraph (provideStep2 c1 a keys)) with
      | (true, _) =>
        ({ provideStep2 c1 a keys with
            isVerifiedAcyclic := true
            nodesList := (provideStep2 c1 a keys).nodesList ++ [a.id] }, none)
      | (false, cyc) =>
        (keys.foldl
          (fun acc k => { acc with providers := insertA acc.providers k (providersGet c1 k) })
          (provideStep2 c1 a keys),
         some (.cycleDetected cyc))

/-- Go: the body of Container.provide after the snapshot (dig.go 651-724):
build the node, validate its result keys, require at least one non-error
result, then hand over to provideAfterKeys. -/
def provideBody (c0 : Container) (a : ProvideArgs) : Container × Option DigErr :=
  match walkResultKeys (newConstructorNodeM c0 a).1 a.results [] with
  | .error e => ((newConstructorNodeM c0 a).1, some e)
  | .ok keys => provideAfterKeys (newConstructorNodeM c0 a).1 a keys

/-- Go: Container.provide (dig.go 640-725) — snapshot the graph holder
first; the deferred rollback runs exactly when an error is returned. -/
def provide (c : Container) (a : ProvideArgs) : Container × Option DigErr :=
  match provideBody { c with gh := c.gh.Snapshot } a with
  | (c1, some e) => ({ c1 with gh := c1.gh.Rollback }, some e)
  | (c1, none) => (c1, none)

/-- Go: the acyclicity check block of Container.Invoke (dig.go 594-599) —
run the whole-graph check only when isVerifiedAcyclic is false, and cache
a successful check by setting the flag. -/
def invokeAcyclicCheck (c : Container) : Container × Option DigErr :=
  if c.isVerifiedAcyclic then (c, none)
  else
    match IsAcyclic (ghGraph c) with
    | (true, _) => ({ c with isVerifiedAcyclic := true }, none)
    | (false, cyc) => (c, some (.cycleDetected cyc))

/-- A scope in the scope tree; only the root has no parent, and the tag
distinguishes sibling children. -/
inductive Scope where
  | root
  | child (tag : Nat) (parent : Scope)
deriving DecidableEq, Repr

/-- Go: s.parentScope (nil for the root). -/
def Scope.parentScope : Scope → Option Scope
  | .root => none
  | .child _ p => some p

/-- Go: Scope.GetScopesUntilRoot as written in src/unnamed/part_002 — a
scope with a nil parent returns the one-element list holding itself. -/
def Scope.GetScopesUntilRoot : Scope → List Scope
  | .root => [.root]
  | .child t p => Scope.GetScopesUntilRoot p ++ [.child t p]

/-- Go: Scope.GetScopesUntilRoot as written in src/scope.go — a scope with
a nil parent returns nil, so the root is dropped from every chain. -/
def getScopesUntilRootV0 : Scope → List Scope
  | .root => []
  | .child t p => getScopesUntilRootV0 p ++ [.child t p]

/-- Whether consecutive elements of a scope list are linked by the parent
pointer: each element is the parent of the next. -/
def chainOk : List Scope → Bool
  | [] => true
  | [_] => true
  | a :: b :: rest => decide (b.parentScope = some a) && chainOk (b :: rest)

/-- Demo container for the group witness: two values already submitted to
group g of type 5. -/
def cG : Container :=
  { pool := [], providers := [], nodesList := [],
    values := [], groups := [(⟨5, "", "g"⟩, [.base 1, .base 2])],
    gh := ⟨[], [], none⟩, isVerifiedAcyclic := false, deferAcyclicVerification := false }

/-- A deterministic rand source whose permutation is the reversal. -/
def rngRev : Rng := fun n => (List.range n).reverse

/-- Demo container for the optional-absence witness: empty container, key
(3, "") has neither a value nor a provider. -/
def cEmpty : Container :=
  { pool := [], providers := [], nodesList := [], values := [], groups := [],
    gh := ⟨[], [], none⟩, isVerifiedAcyclic := false, deferAcyclicVerification := false }

def envNone : Env := fun _ _ => none

def rngNil : Rng := fun _ => []

/-- Demo container for the infectious-optional witness: node 0 provides key
(7,"") but itself requires key (9,"") which has no provider, so its Call
fails with errMissingDependencies. -/
def cMissing : Container :=
  { pool := [⟨0, 100, [.single "" false 9], [.single "" 7 []], false, 0⟩],
    providers := [(⟨7, "", ""⟩, [0])],
    nodesList := [0], values := [], groups := [],
    gh := ⟨[], [], none⟩, isVerifiedAcyclic := false, deferAcyclicVerification := false }

/-- Demo container for the other-failure case: node 0 provides key (7,"")
with no dependencies, but its constructor reports failure. -/
def cFailing : Container :=
  { pool := [⟨0, 100, [], [.single "" 7 []], false, 0⟩],
    providers := [(⟨7, "", ""⟩, [0])],
    nodesList := [0], values := [], groups := [],
    gh := ⟨[], [], none⟩, isVerifiedAcyclic := false, deferAcyclicVerification := false }

/-- The graph 0 → 1 → 2 → 1: its only cycle is between nodes 1 and 2, and
node 0 lies on no cycle. -/
def g3 : DiGraph :=
  ⟨3, fun n => if n = 0 then [1] else if n = 1 then [2] else if n = 2 then [1] else []⟩

/-- The acyclic graph 0 → 1, for the C10 demonstration that the returned
path is non-empty even when the graph is reported acyclic. -/
def gAcyc : DiGraph := ⟨2, fun n => if n = 0 then [1] else []⟩

/-- The scope s1 of TestScopeTree: a direct child of the root. -/
def sC1 : Scope := .child 1 .root

/-- The scope s3 of TestScopeTree: a child of s1. -/
def sC3 : Scope := .child 3 sC1

/-- Monotone evolution of the node pool: called flags only go from false
to true and no node disappears. -/
def PoolMono (c c' : Container) : Prop :=
  ∀ m, (calledOf c m = true → calledOf c' m = true) ∧
       ((lookupNode c m).isSome = true → (lookupNode c' m).isSome = true)

/-- Container for the constructor-failure scenario: node 0 provides key
(7,""); node 1 consumes it, declares the two outputs (8,"") and (9,""),
and its constructor fails. -/
def cC : Container :=
  { pool := [⟨0, 100, [], [.single "" 7 []], false, 0⟩,
             ⟨1, 101, [.single "" false 7], [.single "" 8 [], .single "" 9 []], false, 1⟩],
    providers := [(⟨7, "", ""⟩, [0]), (⟨8, "", ""⟩, [1]), (⟨9, "", ""⟩, [1])],
    nodesList := [0, 1], values := [], groups := [],
    gh := ⟨[], [], none⟩, isVerifiedAcyclic := false, deferAcyclicVerification := false }

/-- Node 0 succeeds producing the value for key (7,""); node 1 always
fails. -/
def envC : Env := fun nid _ => if nid = 0 then some [.base 7] else none

def rngC : Rng := fun _ => []

/-- The record of node 1 in cC. -/
def nX : CNode := ⟨1, 101, [.single "" false 7], [.single "" 8 [], .single "" 9 []], false, 1⟩

/-- The state after building node 1's arguments in cC (node 0 has run and
committed its output). -/
def cCdep : Container := (BuildList envC rngC 9 cC nX.params).1

/-- The constructor shapes of end-to-end scenario 2: aX consumes key
(2,"") and provides key (1,""); aY consumes (1,"") and provides (2,""),
closing the cycle. -/
def aX : ProvideArgs := ⟨0, 100, [.single "" false 2], [.single "" 1 []]⟩

def aY : ProvideArgs := ⟨1, 101, [.single "" false 1], [.single "" 2 []]⟩

/-- The container after successfully providing aX into an empty
container. -/
def cAfterX : Container := (provide cEmpty aX).1

/-- A container whose committed graph holds the two-node cycle 0 ↔ 1 and
whose isVerifiedAcyclic flag is false. -/
def cCyclic : Container :=
  { pool := [⟨0, 100, [.single "" false 2], [.single "" 1 []], false, 0⟩,
             ⟨1, 101, [.single "" false 1], [.single "" 2 []], false, 1⟩],
    providers := [(⟨1, "", ""⟩, [0]), (⟨2, "", ""⟩, [1])],
    nodesList := [0, 1], values := [], groups := [],
    gh := ⟨[.ctor 0, .ctor 1], [(⟨100, "", ""⟩, 0), (⟨101, "", ""⟩, 1)], none⟩,
    isVerifiedAcyclic := false, deferAcyclicVerification := false }

/-- Scenario of a cycle threading through a value group: aP consumes the
single key (5,"") and provides into group g with element type 7. -/
def aP : ProvideArgs := ⟨0, 100, [.single "" false 5], [.grouped "g" 7]⟩

/-- aQ consumes group g (slice type 9, element type 7) and provides key
(5,""), closing a cycle through the group leaf node. -/
def aQ : ProvideArgs := ⟨1, 101, [.grouped "g" 9 7], [.single "" 5 []]⟩

/-- The container after successfully providing aP into an empty
container. -/
def cAfterP : Container := (provide cEmpty aP).1


theorem lookupA_insertA {κ α : Type} [DecidableEq κ] (m : List (κ × α)) (k q : κ) (v : α) :
    lookupA (insertA m k v) q = if q = k then some v else lookupA m q := by
  induction m with
  | nil => by_cases hq : q = k <;> simp [insertA, lookupA, hq]
  | cons hd tl ih =>
    obtain ⟨k0, v0⟩ := hd
    by_cases hk : k = k0
    · subst hk
      by_cases hq : q = k <;> simp [insertA, lookupA, hq]
    · by_cases hq : q = k0
      · subst hq
        simp [insertA, lookupA, hk, Ne.symm hk]
      · simp [insertA, lookupA, hk, hq, ih]

theorem groupsGet_submit (c : Container) (grp : String) (t : TypeId) (v : Value) :
    groupsGet (submitGroupedValue c grp t v) grp t = groupsGet c grp t ++ [v] := by
  unfold submitGroupedValue groupsGet
  simp [lookupA_insertA]

theorem groupsGet_submit_fold (grp : String) (t : TypeId) :
    ∀ (vs : List Value) (c : Container),
      groupsGet (vs.foldl (fun acc v => submitGroupedValue acc grp t v) c) grp t
        = groupsGet c grp t ++ vs := by
  intro vs
  induction vs with
  | nil => intro c; simp
  | cons v vs ih =>
    intro c
    rw [List.foldl_cons, ih, groupsGet_submit]
    simp

theorem map_getD_range : ∀ (l : List Value),
    (List.range l.length).map (fun j => l.getD j Value.invalid) = l := by
  intro l
  induction l with
  | nil => simp
  | cons a as ih =>
    rw [List.length_cons, List.range_succ_eq_map, List.map_cons, List.map_map]
    have h1 : ((fun j => (a :: as).getD j Value.invalid) ∘ Nat.succ)
        = fun j => as.getD j Value.invalid := by
      funext j
      simp [List.getD_cons_succ]
    rw [h1, ih]
    simp

theorem shuffledCopy_perm (p : List Nat) (items : List Value)
    (hp : p.Perm (List.range items.length)) :
    (shuffledCopy p items).Perm items := by
  unfold shuffledCopy
  have h2 := hp.map (fun j => items.getD j Value.invalid)
  rwa [map_getD_range] at h2

/-- C6: submitGroupedValue always appends to the group, N submissions
accumulate all N values in order, and getValueGroup returns shuffledCopy
under the rand.Perm permutation — a permutation of the accumulated list,
hence the same multiset on every read but no guaranteed order. -/
theorem group_accumulation
    (c : Container) (grp : String) (t : TypeId) (v : Value) (vs : List Value) (rng : Rng) :
    groupsGet (submitGroupedValue c grp t v) grp t = groupsGet c grp t ++ [v] ∧
    groupsGet (vs.foldl (fun acc w => submitGroupedValue acc grp t w) c) grp t
      = groupsGet c grp t ++ vs ∧
    ((rng (groupsGet c grp t).length).Perm (List.range (groupsGet c grp t).length) →
      (getValueGroup rng c grp t).Perm (groupsGet c grp t)) := by
  refine ⟨groupsGet_submit c grp t v, groupsGet_submit_fold grp t vs c, ?_⟩
  intro hp
  exact shuffledCopy_perm _ _ hp

theorem group_accumulation_witness :
    (getValueGroup rngRev cG "g" 5).Perm (groupsGet cG "g" 5) :=
  (group_accumulation cG "g" 5 .invalid [] rngRev).2.2 (by decide)

/-- C7: a single-key parameter with no cached value and no registered
provider builds to the zero value without error when optional, and to an
errMissingTypes error when required. -/
theorem optional_absence
    (env : Env) (rng : Rng) (fuel : Nat) (c : Container) (name : String) (t : TypeId)
    (hv : getValue c name t = none)
    (hp : providersGet c ⟨t, name, ""⟩ = []) :
    Build env rng (fuel + 1) c (.single name true t) = (c, .ok (.zero t)) ∧
    Build env rng (fuel + 1) c (.single name false t)
      = (c, .error (.missingTypes ⟨t, name, ""⟩)) := by
  constructor <;> simp [Build, hv, hp]

theorem optional_absence_witness :
    Build envNone rngNil 3 cEmpty (.single "" true 3) = (cEmpty, .ok (.zero 3)) ∧
    Build envNone rngNil 3 cEmpty (.single "" false 3)
      = (cEmpty, .error (.missingTypes ⟨3, "", ""⟩)) :=
  optional_absence envNone rngNil 2 cEmpty "" 3 rfl rfl

/-- C8: while building a single-key parameter whose sole provider's Call
fails, a failure of kind errMissingDependencies on an optional parameter
resolves the leaf to the zero value; the same failure on a required
parameter, or any other failure on either, aborts the build with
errParamSingleFailed. -/
theorem infectious_optional
    (env : Env) (rng : Rng) (fuel : Nat) (c c1 : Container) (name : String) (t : TypeId)
    (pid : NodeId) (e : DigErr)
    (hv : getValue c name t = none)
    (hp : providersGet c ⟨t, name, ""⟩ = [pid])
    (hc : Call env rng fuel c pid = (c1, some e)) :
    (e = .missingDependencies →
      Build env rng (fuel + 2) c (.single name true t) = (c1, .ok (.zero t))) ∧
    (e = .missingDependencies →
      Build env rng (fuel + 2) c (.single name false t)
        = (c1, .error (.paramSingleFailed pid ⟨t, name, ""⟩ e))) ∧
    (e ≠ .missingDependencies → ∀ opt,
      Build env rng (fuel + 2) c (.single name opt t)
        = (c1, .error (.paramSingleFailed pid ⟨t, name, ""⟩ e))) := by
  refine ⟨?_, ?_, ?_⟩
  · intro he
    subst he
    simp [Build, hv, hp, providersLoop, hc]
  · intro he
    subst he
    simp [Build, hv, hp, providersLoop, hc]
  · intro he opt
    simp [Build, hv, hp, providersLoop, hc, he]

theorem infectious_optional_witness :
    Build envNone rngNil 3 cMissing (.single "" true 7) = (cMissing, .ok (.zero 7)) ∧
    Build envNone rngNil 3 cMissing (.single "" false 7)
      = (cMissing, .error (.paramSingleFailed 0 ⟨7, "", ""⟩ .missingDependencies)) ∧
    Build envNone rngNil 4 cFailing (.single "" true 7)
      = (cFailing, .error (.paramSingleFailed 0 ⟨7, "", ""⟩ .constructorFailed)) := by
  refine ⟨?_, ?_, ?_⟩
  · exact (infectious_optional envNone rngNil 1 cMissing cMissing "" 7 0
      .missingDependencies rfl rfl rfl).1 rfl
  · exact (infectious_optional envNone rngNil 1 cMissing cMissing "" 7 0
      .missingDependencies rfl rfl rfl).2.1 rfl
  · exact (infectious_optional envNone rngNil 2 cFailing cFailing "" 7 0
      .constructorFailed rfl rfl rfl).2.2 (by simp) true

theorem cyclePathWalk_getLast (bt : List (Nat × Nat)) (start : Nat) :
    ∀ (fuel curr : Nat) (acc : List Nat), acc ≠ [] →
      (cyclePathWalk bt start fuel curr acc).getLast? = acc.getLast? := by
  intro fuel
  induction fuel with
  | zero => intro curr acc _; rfl
  | succ fuel ih =>
    intro curr acc h
    unfold cyclePathWalk
    by_cases hc : curr = start
    · simp [hc]
    · simp only [hc, if_false]
      rw [ih _ _ (List.cons_ne_nil _ _)]
      cases acc with
      | nil => exact absurd rfl h
      | cons a as => exact List.getLast?_cons_cons

theorem cyclePathWalk_length (bt : List (Nat × Nat)) (start : Nat) :
    ∀ (fuel curr : Nat) (acc : List Nat),
      acc.length ≤ (cyclePathWalk bt start fuel curr acc).length := by
  intro fuel
  induction fuel with
  | zero => intro curr acc; exact Nat.le_refl _
  | succ fuel ih =>
    intro curr acc
    unfold cyclePathWalk
    by_cases hc : curr = start
    · simp [hc]
    · simp only [hc, if_false]
      calc acc.length ≤ (curr :: acc).length := by simp
        _ ≤ _ := ih _ _

theorem getCyclePath_head (start : Nat) (bt : List (Nat × Nat)) (fuel : Nat) :
    (getCyclePath start bt fuel).head? = some start := rfl

theorem getCyclePath_getLast (start : Nat) (bt : List (Nat × Nat)) (fuel : Nat) :
    (getCyclePath start bt fuel).getLast? = some start := by
  unfold getCyclePath
  cases hbt : lookupA bt start with
  | none => rfl
  | some c0 =>
    have h1 : (cyclePathWalk bt start fuel c0 [start]).getLast? = some start := by
      rw [cyclePathWalk_getLast bt start fuel c0 [start] (List.cons_ne_nil _ _)]
      rfl
    cases hL : cyclePathWalk bt start fuel c0 [start] with
    | nil => rw [hL] at h1; simp at h1
    | cons x xs =>
      rw [hL] at h1
      simp only [hL, List.getLast?_cons_cons]
      exact h1

theorem getCyclePath_length (start : Nat) (bt : List (Nat × Nat)) (fuel : Nat) :
    2 ≤ (getCyclePath start bt fuel).length := by
  unfold getCyclePath
  cases hbt : lookupA bt start with
  | none => simp
  | some c0 =>
    have h1 := cyclePathWalk_length bt start fuel c0 [start]
    simp only [List.length_cons]
    simp only [List.length_cons, List.length_nil] at h1
    omega

/-- C4 (amended): on detection the path is reconstructed by walking the
backtrack map from the start node of the DFS, not from the re-entered node:
it always begins and ends with the start node, and when the backtrack map
has no entry for the start node (as happens when the detected cycle does
not pass through it), the path degenerates to [start, start]. -/
theorem cycle_path_from_start (bt : List (Nat × Nat)) (start fuel : Nat) :
    (getCyclePath start bt fuel).head? = some start ∧
    (getCyclePath start bt fuel).getLast? = some start ∧
    (lookupA bt start = none → getCyclePath start bt fuel = [start, start]) := by
  refine ⟨getCyclePath_head start bt fuel, getCyclePath_getLast start bt fuel, ?_⟩
  intro hbt
  unfold getCyclePath
  rw [hbt]

theorem cycle_path_from_start_witness :
    getCyclePath 5 [] 3 = [5, 5] :=
  (cycle_path_from_start [] 5 3).2.2 rfl

/-- C4 counterexample: starting the DFS at node 0 on the graph 0→1→2→1,
the cycle is detected by revisiting on-stack node 1 (reached from node 2),
yet the returned path is [0, 0].  No edge of the graph even points at node
0, so [0, 0] cannot be an ordered node list running from the re-entered
node back to itself. -/
theorem cycle_path_counterexample :
    VerifyAcyclic g3 0 = (false, [0, 0]) ∧
    (0 ∉ g3.edges 0 ∧ 0 ∉ g3.edges 1 ∧ 0 ∉ g3.edges 2) ∧
    1 ∈ g3.edges 2 := by
  refine ⟨by decide, by refine ⟨by decide, by decide, by decide⟩, by decide⟩

/-- C10: the path slice of VerifyAcyclic is computed unconditionally from
the backtrack map: for every graph and start node it begins and ends with
the start node and has length at least 2, even when the function reports
the graph acyclic — as the acyclic demo graph shows concretely. -/
theorem verify_acyclic_path_unconditional :
    (∀ (g : DiGraph) (n : Nat),
      ((VerifyAcyclic g n).2).head? = some n ∧
      ((VerifyAcyclic g n).2).getLast? = some n ∧
      2 ≤ ((VerifyAcyclic g n).2).length) ∧
    VerifyAcyclic gAcyc 0 = (true, [0, 0]) := by
  constructor
  · intro g n
    exact ⟨getCyclePath_head _ _ _, getCyclePath_getLast _ _ _, getCyclePath_length _ _ _⟩
  · decide

theorem gsur_getLast : ∀ s : Scope, (Scope.GetScopesUntilRoot s).getLast? = some s
  | .root => rfl
  | .child t p => by
    unfold Scope.GetScopesUntilRoot
    exact List.getLast?_concat _

theorem gsur_head : ∀ s : Scope, (Scope.GetScopesUntilRoot s).head? = some .root
  | .root => rfl
  | .child t p => by
    unfold Scope.GetScopesUntilRoot
    have h := gsur_head p
    cases hL : Scope.GetScopesUntilRoot p with
    | nil => rw [hL] at h; simp at h
    | cons x xs =>
      rw [hL] at h
      simpa using h

theorem chainOk_append : ∀ (l : List Scope) (x y : Scope),
    chainOk l = true → l.getLast? = some y → x.parentScope = some y →
    chainOk (l ++ [x]) = true
  | [], x, y, _, h, _ => by simp at h
  | [a], x, y, _, h, hx => by
    simp at h
    subst h
    simp [chainOk, hx]
  | a :: b :: rest, x, y, hc, h, hx => by
    simp only [chainOk, Bool.and_eq_true, decide_eq_true_eq] at hc
    have h2 : (b :: rest).getLast? = some y := by
      rw [← List.getLast?_cons_cons (a := a)]
      exact h
    have h3 := chainOk_append (b :: rest) x y hc.2 h2 hx
    simp only [List.cons_append] at h3 ⊢
    simp only [chainOk, Bool.and_eq_true, decide_eq_true_eq]
    exact ⟨hc.1, h3⟩

theorem gsur_chain : ∀ s : Scope, chainOk (Scope.GetScopesUntilRoot s) = true
  | .root => rfl
  | .child t p => by
    unfold Scope.GetScopesUntilRoot
    exact chainOk_append _ _ p (gsur_chain p) (gsur_getLast p) rfl

/-- C9: the part_002 version of GetScopesUntilRoot returns the ancestor
chain from the root inclusive — root first, receiver last, each element the
parent of the next — matching TestScopeTree; the src/scope.go version
returns nil for the root and therefore drops the root from every chain, so
on the test's tree it returns [s1, s3] instead of [root, s1, s3]. -/
theorem scopes_until_root :
    (∀ s : Scope,
      (Scope.GetScopesUntilRoot s).head? = some .root ∧
      (Scope.GetScopesUntilRoot s).getLast? = some s ∧
      chainOk (Scope.GetScopesUntilRoot s) = true) ∧
    Scope.GetScopesUntilRoot sC3 = [.root, sC1, sC3] ∧
    getScopesUntilRootV0 sC3 = [sC1, sC3] ∧
    getScopesUntilRootV0 .root = [] := by
  refine ⟨fun s => ⟨gsur_head s, gsur_getLast s, gsur_chain s⟩, by decide, by decide, by decide⟩

theorem pool_foldl {β : Type} (f : Container → β → Container)
    (hf : ∀ c b, (f c b).pool = c.pool) :
    ∀ (l : List β) (c : Container), (l.foldl f c).pool = c.pool := by
  intro l
  induction l with
  | nil => intro c; rfl
  | cons b bs ih => intro c; rw [List.foldl_cons, ih, hf]

theorem pool_commit (sr : StagingWriter) (c : Container) : (sr.Commit c).pool = c.pool := by
  unfold StagingWriter.Commit
  exact (pool_foldl
      (fun acc kg => List.foldl (fun a v => Dig.submitGroupedValue a kg.1.group kg.1.t v) acc kg.2)
      (fun c kg => pool_foldl (fun a v => Dig.submitGroupedValue a kg.1.group kg.1.t v)
        (fun _ _ => rfl) kg.2 c) sr.groups _).trans
    (pool_foldl (fun acc kv => acc.setValue kv.1.name kv.1.t kv.2) (fun _ _ => rfl) sr.values c)

theorem find_setCalled (nid m : NodeId) : ∀ l : List CNode,
    (l.map (fun n => if n.id = nid then { n with called := true } else n)).find?
        (fun n => n.id = m)
      = (l.find? (fun n => n.id = m)).map
          (fun n => if n.id = nid then { n with called := true } else n) := by
  intro l
  induction l with
  | nil => rfl
  | cons a l ih =>
    have hid : (if a.id = nid then { a with called := true } else a).id = a.id := by
      by_cases h : a.id = nid <;> simp [h]
    simp only [List.map_cons, List.find?_cons, hid]
    by_cases ha : a.id = m
    · simp [ha]
    · simp [ha, ih]

theorem lookupNode_setCalled (c : Container) (nid m : NodeId) :
    lookupNode (setCalled c nid) m
      = (lookupNode c m).map (fun n => if n.id = nid then { n with called := true } else n) := by
  unfold lookupNode setCalled
  exact find_setCalled nid m c.pool

theorem poolMono_refl (c : Container) : PoolMono c c := fun _ => ⟨id, id⟩

theorem poolMono_trans {a b c : Container} (h1 : PoolMono a b) (h2 : PoolMono b c) :
    PoolMono a c :=
  fun m => ⟨fun h => (h2 m).1 ((h1 m).1 h), fun h => (h2 m).2 ((h1 m).2 h)⟩

theorem poolMono_of_pool_eq {a b : Container} (h : b.pool = a.pool) : PoolMono a b := by
  intro m
  unfold calledOf lookupNode
  rw [h]
  exact ⟨id, id⟩

theorem poolMono_commit (sr : StagingWriter) (c : Container) : PoolMono c (sr.Commit c) :=
  poolMono_of_pool_eq (pool_commit sr c)

theorem poolMono_setCalled (c : Container) (nid : NodeId) : PoolMono c (setCalled c nid) := by
  intro m
  constructor
  · intro h
    unfold calledOf at h ⊢
    rw [lookupNode_setCalled]
    cases hL : lookupNode c m with
    | none => rw [hL] at h; exact absurd h (by simp)
    | some n =>
      rw [hL] at h
      have h2 : n.called = true := h
      by_cases hid : n.id = nid <;> simp [hid, h2]
  · intro h
    rw [lookupNode_setCalled]
    cases hL : lookupNode c m with
    | none => rw [hL] at h; simp at h
    | some n => simp

theorem calledOf_setCalled_self (c : Container) (nid : NodeId)
    (h : (lookupNode c nid).isSome = true) : calledOf (setCalled c nid) nid = true := by
  unfold calledOf
  rw [lookupNode_setCalled]
  cases hL : lookupNode c nid with
  | none => rw [hL] at h; simp at h
  | some n =>
    have hid : n.id = nid := by
      have h2 := hL
      unfold lookupNode at h2
      have h3 := List.find?_some h2
      simpa using h3
    simp [hid]

theorem mono_all (env : Env) (rng : Rng) : ∀ fuel : Nat,
    (∀ c nid, PoolMono c (Call env rng fuel c nid).1) ∧
    (∀ c ps, PoolMono c (BuildList env rng fuel c ps).1) ∧
    (∀ c p, PoolMono c (Build env rng fuel c p).1) ∧
    (∀ c pids name opt t, PoolMono c (providersLoop env rng fuel c pids name opt t).1) ∧
    (∀ c pids grp t, PoolMono c (groupLoop env rng fuel c pids grp t).1) := by
  intro fuel
  induction fuel with
  | zero =>
    exact ⟨fun c _ => poolMono_refl c, fun c _ => poolMono_refl c, fun c _ => poolMono_refl c,
      fun c _ _ _ _ => poolMono_refl c, fun c _ _ _ => poolMono_refl c⟩
  | succ fuel ih =>
    obtain ⟨ihCall, ihBL, ihB, ihPL, ihGL⟩ := ih
    refine ⟨fun c nid => ?_, fun c ps => ?_, fun c p => ?_,
      fun c pids name opt t => ?_, fun c pids grp t => ?_⟩
    · -- Call
      simp only [Call]
      split
      · exact poolMono_refl c
      next n hL =>
        split
        · exact poolMono_refl c
        · split
          · exact poolMono_refl c
          · split
            next c1 e hBL =>
              have h1 := ihBL c n.params
              rw [hBL] at h1
              exact h1
            next c1 args hBL =>
              have h1 := ihBL c n.params
              rw [hBL] at h1
              split
              · exact h1
              · exact poolMono_trans h1 (poolMono_trans
                  (poolMono_commit _ c1) (poolMono_setCalled _ nid))
    · -- BuildList
      match ps with
      | [] => exact poolMono_refl c
      | p :: ps =>
        simp only [BuildList]
        split
        next c1 e hB =>
          have h1 := ihB c p
          rw [hB] at h1
          exact h1
        next c1 v hB =>
          have h1 := ihB c p
          rw [hB] at h1
          split
          next c2 e hBL =>
            have h2 := ihBL c1 ps
            rw [hBL] at h2
            exact poolMono_trans h1 h2
          next c2 vs hBL =>
            have h2 := ihBL c1 ps
            rw [hBL] at h2
            exact poolMono_trans h1 h2
    · -- Build
      match p with
      | .single name opt t =>
        simp only [Build]
        split
        · exact poolMono_refl c
        · split
          · split
            · exact poolMono_refl c
            · exact poolMono_refl c
          · exact ihPL c _ name opt t
      | .grouped grp sliceT elemT =>
        simp only [Build]
        split
        next c1 e hGL =>
          have h1 := ihGL c (providersGet c ⟨elemT, "", grp⟩) grp elemT
          rw [hGL] at h1
          exact h1
        next c1 hGL =>
          have h1 := ihGL c (providersGet c ⟨elemT, "", grp⟩) grp elemT
          rw [hGL] at h1
          exact h1
      | .object fields =>
        simp only [Build]
        split
        next c1 e hBL =>
          have h1 := ihBL c fields
          rw [hBL] at h1
          exact h1
        next c1 vs hBL =>
          have h1 := ihBL c fields
          rw [hBL] at h1
          exact h1
    · -- providersLoop
      match pids with
      | [] => exact poolMono_refl c
      | pid :: rest =>
        simp only [providersLoop]
        split
        next c1 hC =>
          have h1 := ihCall c pid
          rw [hC] at h1
          exact poolMono_trans h1 (ihPL c1 rest name opt t)
        next c1 e hC =>
          have h1 := ihCall c pid
          rw [hC] at h1
          split
          · exact h1
          · exact h1
    · -- groupLoop
      match pids with
      | [] => exact poolMono_refl c
      | pid :: rest =>
        simp only [groupLoop]
        split
        next c1 hC =>
          have h1 := ihCall c pid
          rw [hC] at h1
          exact poolMono_trans h1 (ihGL c1 rest grp t)
        next c1 e hC =>
          have h1 := ihCall c pid
          rw [hC] at h1
          exact h1

/-- C1: constructorNode.Call is a no-op returning no error when the called
flag is already true; across any Call, called flags only transition false
to true (never back); a Call that returns no error leaves the node's flag
true; and when the user constructor reports failure the Call returns
exactly the post-argument-building state with error errConstructorFailed —
no commit happens and the node's own flag is not set by this Call. -/
theorem call_at_most_once (env : Env) (rng : Rng) :
    (∀ (fuel : Nat) (c : Container) (nid : NodeId) (n : CNode),
      lookupNode c nid = some n → n.called = true →
      Call env rng (fuel + 1) c nid = (c, none)) ∧
    (∀ (fuel : Nat) (c : Container) (nid m : NodeId),
      calledOf c m = true → calledOf (Call env rng fuel c nid).1 m = true) ∧
    (∀ (fuel : Nat) (c : Container) (nid : NodeId),
      (Call env rng fuel c nid).2 = none →
      calledOf (Call env rng fuel c nid).1 nid = true) ∧
    (∀ (fuel : Nat) (c : Container) (nid : NodeId) (n : CNode) (c1 : Container)
        (args : List Value),
      lookupNode c nid = some n → n.called = false →
      hasMissingL c n.params = false →
      BuildList env rng fuel c n.params = (c1, .ok args) →
      env nid args = none →
      Call env rng (fuel + 1) c nid = (c1, some .constructorFailed) ∧
      calledOf (Call env rng (fuel + 1) c nid).1 nid = calledOf c1 nid) := by
  refine ⟨?_, ?_, ?_, ?_⟩
  · intro fuel c nid n hL hcl
    simp [Call, hL, hcl]
  · intro fuel c nid m h
    exact ((mono_all env rng fuel).1 c nid m).1 h
  · intro fuel c nid
    match fuel with
    | 0 => intro h; simp [Call] at h
    | fuel + 1 =>
      simp only [Call]
      split
      · intro h; simp at h
      next n hL =>
        split
        next hcl =>
          intro _
          unfold calledOf
          rw [hL]
          exact hcl
        next hcl =>
          split
          · intro h; simp at h
          · split
            next c1 e hBL => intro h; simp at h
            next c1 args hBL =>
              split
              next henv => intro h; simp at h
              next outs henv =>
                intro _
                apply calledOf_setCalled_self
                have hs1 : (lookupNode c nid).isSome = true := by rw [hL]; rfl
                have hs2 := ((mono_all env rng fuel).2.1 c n.params nid).2 hs1
                rw [hBL] at hs2
                have hp := pool_commit (extractList n.results outs) c1
                unfold lookupNode at hs2 ⊢
                rw [hp]
                exact hs2
  · intro fuel c nid n c1 args hL hcl hmiss hBL henv
    constructor
    · simp [Call, hL, hcl, hmiss, hBL, henv]
    · simp [Call, hL, hcl, hmiss, hBL, henv]

/-- C1 witness: concrete instances for every hypothesized conjunct of
call_at_most_once. -/
theorem call_at_most_once_witness :
    Call envC rngC 10 (setCalled cC 1) 1 = (setCalled cC 1, none) ∧
    calledOf (Call envC rngC 10 (setCalled cC 0) 1).1 0 = true ∧
    calledOf (Call envC rngC 10 cC 0).1 0 = true ∧
    Call envC rngC 10 cC 1 = (cCdep, some .constructorFailed) := by
  refine ⟨?_, ?_, ?_, ?_⟩
  · exact (call_at_most_once envC rngC).1 9 (setCalled cC 1) 1
      ⟨1, 101, [.single "" false 7], [.single "" 8 [], .single "" 9 []], true, 1⟩ rfl rfl
  · exact (call_at_most_once envC rngC).2.1 10 (setCalled cC 0) 1 0 rfl
  · exact (call_at_most_once envC rngC).2.2.1 10 cC 0 rfl
  · exact ((call_at_most_once envC rngC).2.2.2 9 cC 1 nX cCdep [.base 7]
      rfl rfl rfl rfl rfl).1

/-- C2 (amended): when the constructor reports failure, Call returns
exactly the post-argument-building state — the values and groups maps equal
those after dependency resolution, none of the failing constructor's staged
outputs is committed; on success all staged outputs become visible together
through the staging writer's Commit. -/
theorem staged_commit_atomic (env : Env) (rng : Rng)
    (fuel : Nat) (c c1 : Container) (nid : NodeId) (n : CNode) (args : List Value)
    (hL : lookupNode c nid = some n) (hcl : n.called = false)
    (hmiss : hasMissingL c n.params = false)
    (hBL : BuildList env rng fuel c n.params = (c1, .ok args)) :
    (env nid args = none →
      Call env rng (fuel + 1) c nid = (c1, some .constructorFailed) ∧
      (Call env rng (fuel + 1) c nid).1.values = c1.values ∧
      (Call env rng (fuel + 1) c nid).1.groups = c1.groups) ∧
    (∀ outs, env nid args = some outs →
      Call env rng (fuel + 1) c nid
        = (setCalled ((extractList n.results outs).Commit c1) nid, none)) := by
  constructor
  · intro henv
    refine ⟨?_, ?_, ?_⟩ <;> simp [Call, hL, hcl, hmiss, hBL, henv]
  · intro outs henv
    simp [Call, hL, hcl, hmiss, hBL, henv]

/-- C2 counterexample: node 1 of cC declares the two outputs (8,"") and
(9,"") and its constructor fails, yet after the failing Call the values
map differs from what it was before the Call — the dependency for key
(7,"") committed by node 0 while node 1's arguments were being built
persists — refuting "the container's values and groups maps are exactly
as they were before the Call".  The staged outputs (8,"") and (9,"") are
indeed absent, and the groups map is untouched: only the argument-building
commits distinguish the post-state from the pre-state. -/
theorem staged_commit_counterexample :
    (Call envC rngC 10 cC 1).2 = some .constructorFailed ∧
    cC.values = [] ∧
    (Call envC rngC 10 cC 1).1.values = [(⟨7, "", ""⟩, .base 7)] ∧
    (Call envC rngC 10 cC 1).1.values ≠ cC.values ∧
    (Call envC rngC 10 cC 1).1.groups = cC.groups ∧
    getValue (Call envC rngC 10 cC 1).1 "" 8 = none ∧
    getValue (Call envC rngC 10 cC 1).1 "" 9 = none := by
  refine ⟨rfl, rfl, rfl, ?_, rfl, rfl, rfl⟩
  intro h
  exact List.cons_ne_nil _ _ (by exact h)

/-- C2 witness: the amended theorem applied to the concrete failing
scenario. -/
theorem staged_commit_witness :
    Call envC rngC 10 cC 1 = (cCdep, some .constructorFailed) ∧
    (Call envC rngC 10 cC 1).1.values = cCdep.values := by
  have h := (staged_commit_atomic envC rngC 9 cC cCdep 1 nX [.base 7]
    rfl rfl rfl rfl).1 rfl
  exact ⟨h.1, h.2.1⟩

theorem providersGet_insert (c : Container) (k q : Key) (l : List NodeId) :
    providersGet { c with providers := insertA c.providers k l } q
      = if q = k then l else providersGet c q := by
  unfold providersGet
  simp only [lookupA_insertA]
  by_cases h : q = k <;> simp [h]

theorem providersGet_fold_acc (f : Container → Key → List NodeId) :
    ∀ (ks : List Key) (c : Container) (q : Key), q ∉ ks →
      providersGet
          (ks.foldl (fun acc k => { acc with providers := insertA acc.providers k (f acc k) }) c) q
        = providersGet c q := by
  intro ks
  induction ks with
  | nil => intro c q _; rfl
  | cons k ks ih =>
    intro c q hq
    rw [List.foldl_cons]
    have hq1 : q ≠ k := fun h => hq (h ▸ List.mem_cons_self k ks)
    have hq2 : q ∉ ks := fun h => hq (List.mem_cons_of_mem k h)
    rw [ih _ q hq2, providersGet_insert, if_neg hq1]

theorem providersGet_fold_const (g : Key → List NodeId) :
    ∀ (ks : List Key) (c : Container) (q : Key),
      providersGet
          (ks.foldl (fun acc k => { acc with providers := insertA acc.providers k (g k) }) c) q
        = if q ∈ ks then g q else providersGet c q := by
  intro ks
  induction ks with
  | nil => intro c q; simp
  | cons k ks ih =>
    intro c q
    rw [List.foldl_cons, ih]
    by_cases h2 : q ∈ ks
    · simp [h2]
    · rw [if_neg h2, providersGet_insert]
      by_cases h1 : q = k
      · subst h1; simp
      · simp [h1, h2]

theorem groupFold_fields {β : Type} (w : β → GHNode) (kf : β → Key) :
    ∀ (ks : List β) (c : Container),
    ((ks.foldl (fun acc x => addGraphNode acc (w x) (kf x)) c)).providers = c.providers ∧
    ((ks.foldl (fun acc x => addGraphNode acc (w x) (kf x)) c)).nodesList = c.nodesList ∧
    ((ks.foldl (fun acc x => addGraphNode acc (w x) (kf x)) c)).gh.snap = c.gh.snap ∧
    ((ks.foldl
        (fun acc x => addGraphNode acc (w x) (kf x)) c)).deferAcyclicVerification
      = c.deferAcyclicVerification := by
  intro ks
  induction ks with
  | nil => intro c; exact ⟨rfl, rfl, rfl, rfl⟩
  | cons x ks ih =>
    intro c
    rw [List.foldl_cons]
    exact ih (addGraphNode c (w x) (kf x))

theorem provFold_fields (f : Container → Key → List NodeId) : ∀ (ks : List Key) (c : Container),
    ((ks.foldl (fun acc k => { acc with providers := insertA acc.providers k (f acc k) }) c)).gh
        = c.gh ∧
    ((ks.foldl (fun acc k => { acc with providers := insertA acc.providers k (f acc k) }) c)).nodesList
        = c.nodesList ∧
    ((ks.foldl (fun acc k => { acc with providers := insertA acc.providers k (f acc k) }) c)).pool
        = c.pool ∧
    ((ks.foldl
        (fun acc k => { acc with providers := insertA acc.providers k (f acc k) }) c)).deferAcyclicVerification
        = c.deferAcyclicVerification := by
  intro ks
  induction ks with
  | nil => intro c; exact ⟨rfl, rfl, rfl, rfl⟩
  | cons k ks ih =>
    intro c
    rw [List.foldl_cons]
    exact ih _

mutual

theorem getParamOrder_congr (c c' : Container)
    (hp : c'.providers = c.providers) (ho : c'.gh.orders = c.gh.orders)
    (hpool : c'.pool = c.pool) : ∀ p : Param, getParamOrder c' p = getParamOrder c p
  | .single name o t => by
    simp only [getParamOrder, providersGet, ctypeOf, lookupNode, hp, ho, hpool]
  | .grouped grp sliceT elemT => by
    simp only [getParamOrder, ho]
  | .object fields => by
    simp only [getParamOrder]
    exact getParamOrderL_congr c c' hp ho hpool fields

theorem getParamOrderL_congr (c c' : Container)
    (hp : c'.providers = c.providers) (ho : c'.gh.orders = c.gh.orders)
    (hpool : c'.pool = c.pool) : ∀ ps : List Param, getParamOrderL c' ps = getParamOrderL c ps
  | [] => rfl
  | p :: ps => by
    simp only [getParamOrderL]
    rw [getParamOrder_congr c c' hp ho hpool p, getParamOrderL_congr c c' hp ho hpool ps]

end

theorem ghCtorEdges_congr (c c' : Container)
    (hp : c'.providers = c.providers) (ho : c'.gh.orders = c.gh.orders)
    (hpool : c'.pool = c.pool) (nid : NodeId) :
    ghCtorEdges c' nid = ghCtorEdges c nid := by
  unfold ghCtorEdges
  have hL : lookupNode c' nid = lookupNode c nid := by
    unfold lookupNode
    rw [hpool]
  rw [hL]
  cases lookupNode c nid with
  | none => rfl
  | some n =>
    dsimp only
    exact getParamOrderL_congr c c' hp ho hpool n.params

theorem ghEdges_congr (c c' : Container) (hgh : c'.gh = c.gh)
    (hp : c'.providers = c.providers) (hpool : c'.pool = c.pool) :
    ghEdges c' = ghEdges c := by
  funext i
  unfold ghEdges
  rw [hgh]
  cases c.gh.nodes.get? i with
  | none => rfl
  | some w =>
    cases w with
    | ctor nid =>
      dsimp only
      exact ghCtorEdges_congr c c' hp (by rw [hgh]) hpool nid
    | group grp sliceT elemT =>
      dsimp only
      unfold providersGet orderOf lookupNode
      simp only [hp, hpool]

theorem ghGraph_congr (c c' : Container) (hgh : c'.gh = c.gh)
    (hp : c'.providers = c.providers) (hpool : c'.pool = c.pool) :
    ghGraph c' = ghGraph c := by
  unfold ghGraph
  rw [hgh, ghEdges_congr c c' hgh hp hpool]

theorem provideStep2_fields (c1 : Container) (a : ProvideArgs) (keys : List Key) :
    (provideStep2 c1 a keys).gh = c1.gh ∧
    (provideStep2 c1 a keys).nodesList = c1.nodesList ∧
    (provideStep2 c1 a keys).pool = c1.pool ∧
    (provideStep2 c1 a keys).deferAcyclicVerification = c1.deferAcyclicVerification ∧
    (provideStep2 c1 a keys).isVerifiedAcyclic = false := by
  have h := provFold_fields (fun acc k => providersGet acc k ++ [a.id]) keys c1
  exact ⟨h.1, h.2.1, h.2.2.1, h.2.2.2, rfl⟩

theorem providersGet_provideStep2 (c1 : Container) (a : ProvideArgs) (keys : List Key)
    (q : Key) (hq : q ∉ keys) :
    providersGet (provideStep2 c1 a keys) q = providersGet c1 q :=
  providersGet_fold_acc (fun acc k => providersGet acc k ++ [a.id]) keys c1 q hq

theorem provideAfterKeys_spec (c1 : Container) (a : ProvideArgs) (keys : List Key) :
    ((provideAfterKeys c1 a keys).2.isSome = true →
      (∀ q, providersGet (provideAfterKeys c1 a keys).1 q = providersGet c1 q) ∧
      (provideAfterKeys c1 a keys).1.gh = c1.gh ∧
      (provideAfterKeys c1 a keys).1.nodesList = c1.nodesList) ∧
    ((provideAfterKeys c1 a keys).2 = none → c1.deferAcyclicVerification = false →
      (provideAfterKeys c1 a keys).1.isVerifiedAcyclic = true ∧
      (IsAcyclic (ghGraph (provideAfterKeys c1 a keys).1)).1 = true) ∧
    ((provideAfterKeys c1 a keys).2 = none → c1.deferAcyclicVerification = true →
      (provideAfterKeys c1 a keys).1.isVerifiedAcyclic = false) := by
  have hS := provideStep2_fields c1 a keys
  unfold provideAfterKeys
  by_cases hke : keys.isEmpty
  · rw [if_pos hke]
    exact ⟨fun _ => ⟨fun q => rfl, rfl, rfl⟩, fun h _ => Option.noConfusion h,
      fun h _ => Option.noConfusion h⟩
  · rw [if_neg (by simp [hke])]
    by_cases hdef : c1.deferAcyclicVerification
    · rw [if_pos (hS.2.2.2.1.trans hdef)]
      refine ⟨fun h => Bool.noConfusion h, fun _ h => ?_, fun _ _ => hS.2.2.2.2⟩
      rw [hdef] at h
      exact Bool.noConfusion h
    · have hdef2 : (provideStep2 c1 a keys).deferAcyclicVerification = false := by
        rw [hS.2.2.2.1]
        simpa using hdef
      rw [if_neg (by rw [hdef2]; simp)]
      split
      next x hIA =>
        refine ⟨fun h => Bool.noConfusion h, fun _ _ => ⟨rfl, ?_⟩, fun _ hd => absurd hd hdef⟩
        have hcongr : ghGraph ({ provideStep2 c1 a keys with
            isVerifiedAcyclic := true
            nodesList := (provideStep2 c1 a keys).nodesList ++ [a.id] } : Container)
            = ghGraph (provideStep2 c1 a keys) :=
          ghGraph_congr (provideStep2 c1 a keys) _ rfl rfl rfl
        rw [hcongr, hIA]
      next cyc hIA =>
        refine ⟨fun _ => ⟨?_, ?_, ?_⟩, fun h _ => Option.noConfusion h,
          fun h _ => Option.noConfusion h⟩
        · intro q
          rw [providersGet_fold_const (fun k => providersGet c1 k) keys _ q]
          by_cases hq : q ∈ keys
          · simp [hq]
          · rw [if_neg hq]
            exact providersGet_provideStep2 c1 a keys q hq
        · rw [(provFold_fields (fun _ k => providersGet c1 k) keys _).1]
          exact hS.1
        · rw [(provFold_fields (fun _ k => providersGet c1 k) keys _).2.1]
          exact hS.2.1

theorem newCN_fields (c : Container) (a : ProvideArgs) :
    ((newConstructorNodeM c a).1).providers = c.providers ∧
    ((newConstructorNodeM c a).1).nodesList = c.nodesList ∧
    ((newConstructorNodeM c a).1).gh.snap = c.gh.snap ∧
    ((newConstructorNodeM c a).1).deferAcyclicVerification = c.deferAcyclicVerification := by
  have h := groupFold_fields (fun g : String × TypeId × TypeId => GHNode.group g.1 g.2.1 g.2.2)
    (fun g => ⟨g.2.1, "", g.1⟩) (groupSlicesL a.params) c
  exact ⟨h.1, h.2.1, h.2.2.1, h.2.2.2⟩

theorem provideBody_spec (c0 : Container) (a : ProvideArgs) :
    ((provideBody c0 a).2.isSome = true →
      (∀ q, providersGet (provideBody c0 a).1 q = providersGet c0 q) ∧
      (provideBody c0 a).1.gh.snap = c0.gh.snap ∧
      (provideBody c0 a).1.nodesList = c0.nodesList) ∧
    ((provideBody c0 a).2 = none → c0.deferAcyclicVerification = false →
      (provideBody c0 a).1.isVerifiedAcyclic = true ∧
      (IsAcyclic (ghGraph (provideBody c0 a).1)).1 = true) ∧
    ((provideBody c0 a).2 = none → c0.deferAcyclicVerification = true →
      (provideBody c0 a).1.isVerifiedAcyclic = false) := by
  have hN := newCN_fields c0 a
  unfold provideBody
  split
  next e hW =>
    refine ⟨fun _ => ⟨fun q => ?_, hN.2.2.1, hN.2.1⟩,
      fun h _ => Option.noConfusion h, fun h _ => Option.noConfusion h⟩
    unfold providersGet
    rw [hN.1]
  next keys hW =>
    have hPAK := provideAfterKeys_spec (newConstructorNodeM c0 a).1 a keys
    refine ⟨fun hs => ?_, fun hn hd => ?_, fun hn hd => ?_⟩
    · obtain ⟨h1, h2, h3⟩ := hPAK.1 hs
      refine ⟨fun q => (h1 q).trans ?_, ?_, h3.trans hN.2.1⟩
      · unfold providersGet
        rw [hN.1]
      · rw [h2]
        exact hN.2.2.1
    · exact hPAK.2.1 hn (hN.2.2.2.trans hd)
    · exact hPAK.2.2 hn (hN.2.2.2.trans hd)

theorem provide_spec (c : Container) (a : ProvideArgs) :
    ((provide c a).2.isSome = true →
      (∀ k, providersGet (provide c a).1 k = providersGet c k) ∧
      (provide c a).1.gh.nodes = c.gh.nodes ∧
      (provide c a).1.gh.orders = c.gh.orders ∧
      (provide c a).1.nodesList = c.nodesList) ∧
    ((provide c a).2 = none → c.deferAcyclicVerification = false →
      (provide c a).1.isVerifiedAcyclic = true ∧
      (IsAcyclic (ghGraph (provide c a).1)).1 = true) ∧
    ((provide c a).2 = none → c.deferAcyclicVerification = true →
      (provide c a).1.isVerifiedAcyclic = false) := by
  have hPB := provideBody_spec { c with gh := c.gh.Snapshot } a
  unfold provide
  split
  next c1 e hB =>
    rw [hB] at hPB
    obtain ⟨h1, h2, h3⟩ := hPB.1 rfl
    refine ⟨fun _ => ⟨fun k => h1 k, ?_, ?_, h3⟩,
      fun h _ => Option.noConfusion h, fun h _ => Option.noConfusion h⟩
    · show (c1.gh.Rollback).nodes = c.gh.nodes
      unfold GraphHolder.Rollback
      rw [show c1.gh.snap = some (c.gh.nodes, c.gh.orders) from h2]
    · show (c1.gh.Rollback).orders = c.gh.orders
      unfold GraphHolder.Rollback
      rw [show c1.gh.snap = some (c.gh.nodes, c.gh.orders) from h2]
  next c1 hB =>
    rw [hB] at hPB
    refine ⟨fun h => Bool.noConfusion h, fun _ hd => hPB.2.1 rfl hd, fun _ hd => hPB.2.2 rfl hd⟩

end Dig
namespace Dig

/-- C3: a Provide that fails — in particular one whose registration would
introduce a dependency cycle — returns an error and leaves the provider
map (under lookup), the graph holder's node list and order map, and the
container's node list exactly as they were before the call; conversely a
successful non-deferred Provide always leaves an acyclic committed graph,
so a cycle-introducing registration can never commit. -/
theorem provide_cycle_rollback (c : Container) (a : ProvideArgs) :
    ((provide c a).2.isSome = true →
      (∀ k, providersGet (provide c a).1 k = providersGet c k) ∧
      (provide c a).1.gh.nodes = c.gh.nodes ∧
      (provide c a).1.gh.orders = c.gh.orders ∧
      (provide c a).1.nodesList = c.nodesList) ∧
    ((provide c a).2 = none → c.deferAcyclicVerification = false →
      (IsAcyclic (ghGraph (provide c a).1)).1 = true) :=
  ⟨(provide_spec c a).1, fun hn hd => ((provide_spec c a).2.1 hn hd).2⟩

theorem provide_cycle_rollback_witness :
    (provide cAfterX aY).2.isSome = true ∧
    providersGet (provide cAfterX aY).1 ⟨2, "", ""⟩ = providersGet cAfterX ⟨2, "", ""⟩ ∧
    (provide cAfterX aY).1.gh.nodes = cAfterX.gh.nodes ∧
    (IsAcyclic (ghGraph (provide cEmpty aX).1)).1 = true ∧
    (provide cAfterP aQ).2.isSome = true ∧
    providersGet (provide cAfterP aQ).1 ⟨5, "", ""⟩ = providersGet cAfterP ⟨5, "", ""⟩ ∧
    providersGet (provide cAfterP aQ).1 ⟨7, "", "g"⟩ = providersGet cAfterP ⟨7, "", "g"⟩ ∧
    (provide cAfterP aQ).1.gh.nodes = cAfterP.gh.nodes ∧
    (provide cAfterP aQ).1.nodesList = cAfterP.nodesList := by
  refine ⟨by decide, ?_, ?_, ?_, by decide, ?_, ?_, ?_, ?_⟩
  · exact ((provide_cycle_rollback cAfterX aY).1 (by decide)).1 ⟨2, "", ""⟩
  · exact ((provide_cycle_rollback cAfterX aY).1 (by decide)).2.1
  · exact (provide_cycle_rollback cEmpty aX).2 (by decide) (by decide)
  · exact ((provide_cycle_rollback cAfterP aQ).1 (by decide)).1 ⟨5, "", ""⟩
  · exact ((provide_cycle_rollback cAfterP aQ).1 (by decide)).1 ⟨7, "", "g"⟩
  · exact ((provide_cycle_rollback cAfterP aQ).1 (by decide)).2.1
  · exact ((provide_cycle_rollback cAfterP aQ).1 (by decide)).2.2.2

/-- C5: Invoke's acyclicity block runs the whole-graph check only when
isVerifiedAcyclic is false, returns the container unchanged (with an
error) on a cyclic graph, and caches a successful check by setting the
flag; a successful deferred Provide leaves the flag false, so the next
Invoke performs exactly one fresh check; a successful non-deferred Provide
re-checks the whole graph itself, leaving the flag true and the committed
graph verified acyclic. -/
theorem invoke_check_caching :
    (∀ c : Container, c.isVerifiedAcyclic = true → invokeAcyclicCheck c = (c, none)) ∧
    (∀ c : Container, c.isVerifiedAcyclic = false → (IsAcyclic (ghGraph c)).1 = true →
      invokeAcyclicCheck c = ({ c with isVerifiedAcyclic := true }, none)) ∧
    (∀ c : Container, c.isVerifiedAcyclic = false → (IsAcyclic (ghGraph c)).1 = false →
      (invokeAcyclicCheck c).1 = c ∧ (invokeAcyclicCheck c).2.isSome = true) ∧
    (∀ (c : Container) (a : ProvideArgs), c.deferAcyclicVerification = true →
      (provide c a).2 = none → (provide c a).1.isVerifiedAcyclic = false) ∧
    (∀ (c : Container) (a : ProvideArgs), c.deferAcyclicVerification = false →
      (provide c a).2 = none →
      (provide c a).1.isVerifiedAcyclic = true ∧
      (IsAcyclic (ghGraph (provide c a).1)).1 = true) := by
  refine ⟨?_, ?_, ?_, ?_, ?_⟩
  · intro c h
    unfold invokeAcyclicCheck
    rw [if_pos h]
  · intro c h hA
    unfold invokeAcyclicCheck
    rw [if_neg (by rw [h]; simp)]
    split
    next x hIA => rfl
    next cyc hIA =>
      rw [hIA] at hA
      exact Bool.noConfusion hA
  · intro c h hA
    unfold invokeAcyclicCheck
    rw [if_neg (by rw [h]; simp)]
    split
    next x hIA =>
      rw [hIA] at hA
      exact Bool.noConfusion hA
    next cyc hIA => exact ⟨rfl, rfl⟩
  · intro c a hd hn
    exact (provide_spec c a).2.2 hn hd
  · intro c a hd hn
    exact (provide_spec c a).2.1 hn hd

theorem invoke_check_caching_witness :
    invokeAcyclicCheck cAfterX = (cAfterX, none) ∧
    invokeAcyclicCheck cEmpty = ({ cEmpty with isVerifiedAcyclic := true }, none) ∧
    (invokeAcyclicCheck cCyclic).2.isSome = true ∧
    (provide { cEmpty with deferAcyclicVerification := true } aX).1.isVerifiedAcyclic = false ∧
    (provide cEmpty aX).1.isVerifiedAcyclic = true := by
  refine ⟨?_, ?_, ?_, ?_, ?_⟩
  · exact invoke_check_caching.1 cAfterX (by decide)
  · exact invoke_check_caching.2.1 cEmpty rfl (by decide)
  · exact (invoke_check_caching.2.2.1 cCyclic rfl (by decide)).2
  · exact invoke_check_caching.2.2.2.1 _ aX rfl (by decide)
  · exact (invoke_check_caching.2.2.2.2 cEmpty aX rfl (by decide)).1

end Dig

